import Mathlib

/-!
Shallow embedding of the COVID-19 statistics script (`stats.py`).

Python dictionaries are modelled as insertion-ordered association lists with
string keys: lookup finds the first matching key, assignment updates the value
in place (keeping the key's position) or appends a fresh key at the end, which
is exactly the observable behaviour of CPython dicts.  Dynamically typed cell
values are modelled by small sum types (`PyVal`, `RVal`).  Fallible Python
operations (`int(...)`, `d[k]`, division) return `Except String` values whose
error strings name the Python exception they model.  Real-number arithmetic on
case counts is modelled over `ℚ`; the claims settled here do not depend on
binary floating-point rounding artefacts.
-/

/-- Python values stored in a country's `totals` series: raw CSV cells are
strings; totalization of multi-territory countries stores integers. -/
inductive PyVal where
  | str : String → PyVal
  | int : Int → PyVal
  deriving DecidableEq

/-- Values stored in a per-country ratings record: carried-through raw cells
(strings or integers) and computed rational metrics. -/
inductive RVal where
  | str : String → RVal
  | int : Int → RVal
  | rat : ℚ → RVal
  deriving DecidableEq

/-- Python `d[k]` / `k in d` on a dict: the value at the first matching key. -/
def dictGet {β : Type} : List (String × β) → String → Option β
  | [], _ => none
  | p :: ps, k => if p.1 == k then some p.2 else dictGet ps k

/-- Python `d[k] = v` on a dict: update the value in place when the key is
present (keeping its position), otherwise append the new key at the end. -/
def dictSet {β : Type} : List (String × β) → String → β → List (String × β)
  | [], k, v => [(k, v)]
  | p :: ps, k, v => if p.1 == k then (k, v) :: ps else p :: dictSet ps k v

/-! Key constants of `stats.py` (lines 39-71). -/

def key_mainland : String := "mainland"

def key_deaths : String := "deaths"

def key_confirmed : String := "confirmed"

def key_recovered : String := "recovered"

/-- The three case-type files, in the order they are merged and totalized. -/
def case_types : List String := [key_deaths, key_confirmed, key_recovered]

def key_mortality : String := "Mort"

def key_lethality : String := "let"

def key_active : String := "active"

def key_active_per_unknown : String := "APU"

def key_active_per_population : String := "APP"

def key_confirmed_per_population : String := "CPP"

def key_population : String := "population"

def file_ext_cache_json : String := ".cache.json"

/-- A dated case-count series as parsed from CSV: date key to raw string cell. -/
abbrev Series := List (String × String)

/-- A territory record's case-type slots: case-type name to series (a slot is
absent when that case-type file had no row for the territory). -/
abbrev Territory := List (String × Series)

/-- A country's `totals` map: case-type name to a series of Python values
(strings for collapsed single-territory countries, integers after summing). -/
abbrev Totals := List (String × List (String × PyVal))

/-- The structured territory record built by `row2dict` (lines 154-169). -/
structure TerritoryRow where
  province : String
  country : String
  lat : String
  lon : String
  series : Series
  deriving DecidableEq

/-- Model of `row2dict` (lines 154-169): the first four columns are read by fixed index
(an IndexError, modelled as `none`, exactly when the row is shorter than 4);
the dated columns are the loop `for i in range(4, min(len_hdr, len_row))`
assigning `retval[placeholder][header[i]] = row[i]`. -/
def row2dict (row header : List String) : Option TerritoryRow :=
  match row with
  | p :: c :: la :: lo :: _ =>
    some ⟨p, c, la, lo,
      (List.range' 4 (min header.length row.length - 4)).foldl
        (fun d i => dictSet d (header.getD i "") (row.getD i "")) []⟩
  | _ => none

/-- The value of a decimal digit character, `none` for a non-digit. -/
def digitVal (c : Char) : Option Nat :=
  if c.isDigit then some (c.toNat - 48) else none

/-- Decimal parsing of a digit run: `none` when empty or any non-digit. -/
def parseDigits (cs : List Char) : Option Nat :=
  match cs with
  | [] => none
  | _ => cs.foldlM (fun a c => (digitVal c).map (fun d => a * 10 + d)) 0

/-- Python `int(s)` on a character list: an optional sign followed by a
non-empty digit run. -/
def pyIntCore : List Char → Option Int
  | '-' :: rest => (parseDigits rest).map (fun n => -(n : Int))
  | '+' :: rest => (parseDigits rest).map (fun n => (n : Int))
  | cs => (parseDigits cs).map (fun n => (n : Int))

/-- Python `int(s)` on a CSV cell: the parsed integer, or a ValueError for a
non-numeric string. -/
def pyInt (s : String) : Except String Int :=
  match pyIntCore s.data with
  | some n => Except.ok n
  | none => Except.error "ValueError"

/-- Python `int(s)` with a default of `0` for unparsable cells; used only to
state sums whose hypotheses already force every cell to parse. -/
def pyIntD (s : String) : Int := (pyIntCore s.data).getD 0

/-- The date loop of `countries2json` (lines 243-250) for one territory's
series of one case-type: each count is parsed to integer and either initializes
`totals[case_type][date]` or is added to it. -/
def addSeries (acc : List (String × Int)) (s : Series) :
    Except String (List (String × Int)) :=
  s.foldlM (fun a p => do
    let n ← pyInt p.2
    match dictGet a p.1 with
    | none => Except.ok (dictSet a p.1 n)
    | some m => Except.ok (dictSet a p.1 (m + n))) acc

/-- One territory's contribution in the loop of lines 240-250: a territory
lacking the case-type is skipped (`continue`), any other is folded in. -/
def totalsFoldStep (ct : String) (a : List (String × Int)) (p : String × Territory) :
    Except String (List (String × Int)) :=
  match dictGet p.2 ct with
  | none => Except.ok a
  | some s => addSeries a s

/-- The territory loop of `countries2json` (lines 240-250) for one case-type:
the territories folded into the running totals in iteration order. -/
def totalsForType (ters : List (String × Territory)) (ct : String) :
    Except String (List (String × Int)) :=
  ters.foldlM (totalsFoldStep ct) []

/-- A totalized series of a multi-territory country: integer values. -/
def intSeries (s : List (String × Int)) : List (String × PyVal) :=
  s.map (fun p => (p.1, PyVal.int p.2))

/-- A collapsed series of a single-territory country: the raw strings verbatim. -/
def strSeries (s : Series) : List (String × PyVal) :=
  s.map (fun p => (p.1, PyVal.str p.2))

/-- The totals-merging step of `countries2json` (lines 236-255) for one
country.  `totals` is initialized `{deaths: {}, recovered: {}, confirmed: {}}`.
With more than one territory, each case-type is summed over the territories
defining it (`totalsForType`).  Otherwise the code reads
`territories['mainland'][case_type]` — looking up the literal key `'mainland'`,
not the single territory's actual name — copies each series verbatim, and
deletes the territory map (first component `none`).  A failed lookup is the
Python KeyError. -/
def totalizeCountry (ters : List (String × Territory)) :
    Except String (Option (List (String × Territory)) × Totals) :=
  if 1 < ters.length then do
    let d ← totalsForType ters key_deaths
    let c ← totalsForType ters key_confirmed
    let r ← totalsForType ters key_recovered
    Except.ok (some ters,
      [(key_deaths, intSeries d), (key_recovered, intSeries r),
       (key_confirmed, intSeries c)])
  else
    match dictGet ters key_mainland with
    | none => Except.error "KeyError"
    | some t =>
      match dictGet t key_deaths, dictGet t key_confirmed, dictGet t key_recovered with
      | some sd, some sc, some sr =>
          Except.ok (none,
            [(key_deaths, strSeries sd), (key_recovered, strSeries sr),
             (key_confirmed, strSeries sc)])
      | _, _, _ => Except.error "KeyError"

/-! Population enrichment (`stats.py` lines 91-128 and 218-233). -/

/-- The literal `exceptional_names` table (lines 91-113): JHU database name to
`countryinfo` name, `none` marking an explicit no-redirect entry. -/
def exceptional_names : List (String × Option String) :=
  [("Andorra", none),
   ("Bahamas", some "The Bahamas"),
   ("Cabo Verde", some "Cape Verde"),
   ("Congo (Brazzaville)", some "Republic of the Congo"),
   ("Congo (Kinshasa)", some "Democratic Republic of the Congo"),
   ("Cote d\x27Ivoire", some "Ivory Coast"),
   ("Diamond Princess", none),
   ("Czechia", some "Czech Republic"),
   ("Eswatini", some "Swaziland"),
   ("Gambia", some "The Gambia"),
   ("Holy See", none),
   ("Korea, South", some "South Korea"),
   ("Montenegro", none),
   ("North Macedonia", some "Republic of Macedonia"),
   ("Serbia", none),
   ("Taiwan*", some "Taiwan"),
   ("US", some "United States"),
   ("Timor-Leste", none),
   ("West Bank and Gaza", none),
   ("Kosovo", none),
   ("Burma", none),
   ("MS Zaandam", none),
   ("Sao Tome and Principe", some "São Tomé and Príncipe")]

/-- The literal `exceptional_populations` override table (lines 115-128). -/
def exceptional_populations : List (String × Int) :=
  [("Andorra", 77543),
   ("Montenegro", 622359),
   ("Timor-Leste", 1183643),
   ("West Bank and Gaza", 2939418),
   ("Kosovo", 1810463),
   ("Burma", 53582855),
   ("Holy See", 825),
   ("Serbia", 6963764)]

/-- Outcome of the enrichment block for one country: a population value is
assigned, or the country is silently left untouched, or it is left untouched
and appended to the diagnostic `missing_countries` list. -/
inductive EnrichResult where
  | population : Int → EnrichResult
  | skipped : EnrichResult
  | missing : EnrichResult
  deriving DecidableEq

/-- The innermost fallback of lines 230-233: the literal override table, else
the `missing_countries` append. -/
def exceptionalFallback (country : String) : EnrichResult :=
  match dictGet exceptional_populations country with
  | some p => EnrichResult.population p
  | none => EnrichResult.missing

/-- Population enrichment for one country (lines 218-233).  The external
`countryinfo` package is abstracted as `service`: `some p` when the name is
recognized (`is_country_name_valid` true, `.population()` returning `p`),
`none` when the lookup raises KeyError.  A country failing the direct lookup is
checked against `exceptional_names`; a name absent from that table falls out
of the block with nothing assigned and nothing recorded. -/
def enrichPopulation (service : String → Option Int) (country : String) : EnrichResult :=
  match service country with
  | some p => EnrichResult.population p
  | none =>
    match dictGet exceptional_names country with
    | none => EnrichResult.skipped
    | some exName =>
      match exName with
      | some r =>
        match service r with
        | some p => EnrichResult.population p
        | none => exceptionalFallback country
      | none => exceptionalFallback country

/-! Metric calculation (`calculate_ratings`, lines 324-390). -/

/-- Python `round(x, 3)`: rounding to three decimal places, modelled over `ℚ`
(ties at half-thousandths round half-up here; no settled claim touches a tie). -/
def round3 (q : ℚ) : ℚ := (round (q * 1000) : ℤ) / 1000

/-- Python true division: error on a zero divisor (ZeroDivisionError). -/
def pyDiv (a b : ℚ) : Except String ℚ :=
  if b = 0 then Except.error "ZeroDivisionError" else Except.ok (a / b)

/-- Lookup `data[country][key_totals][ct][date]`: a missing key is a KeyError. -/
def getCases (totals : Totals) (ct date : String) : Except String PyVal :=
  match dictGet totals ct with
  | none => Except.error "KeyError"
  | some s =>
    match dictGet s date with
    | none => Except.error "KeyError"
    | some v => Except.ok v

/-- The `if type(x) is str: x = int(x)` coercion applied to each case count. -/
def coerceCount (v : PyVal) : Except String Int :=
  match v with
  | PyVal.str s => pyInt s
  | PyVal.int n => Except.ok n

/-- A raw totals cell carried into a ratings record unchanged. -/
def rvalOfPy : PyVal → RVal
  | PyVal.str s => RVal.str s
  | PyVal.int n => RVal.int n

/-- The ratings-record dict literal of lines 380-389, built by successive key
assignment in source order.  The `deaths` key appears twice in the source
literal: first with the integer-coerced count, then with the raw totals value;
dict semantics keep the first position and the second (raw) value. -/
def ratingRecord (mort leth apu : ℚ) (deaths confirmed active : Int)
    (app cpp : ℚ) (pop : Int) (deathsRaw : PyVal) : List (String × RVal) :=
  dictSet (dictSet (dictSet (dictSet (dictSet (dictSet (dictSet (dictSet (dictSet (dictSet []
    key_mortality (RVal.rat mort))
    key_lethality (RVal.rat leth))
    key_active_per_unknown (RVal.rat apu))
    key_deaths (RVal.int deaths))
    key_confirmed (RVal.int confirmed))
    key_active (RVal.int active))
    key_active_per_population (RVal.rat app))
    key_confirmed_per_population (RVal.rat cpp))
    key_population (RVal.int pop))
    key_deaths (rvalOfPy deathsRaw)

/-- The per-country body of the `calculate_ratings` loop (lines 347-389), in
source evaluation order.  `pop` is `data[country][key_population]`; `popLocal`
is the local variable `population`, assigned only under the
`min_population is not None` branch — referencing it unassigned on line 371 is
Python's NameError. -/
def countryRating (pop : Int) (popLocal : Option Int) (totals : Totals)
    (date : String) : Except String (List (String × RVal)) := do
  let deathsRaw ← getCases totals key_deaths date
  let deaths ← coerceCount deathsRaw
  let mortality0 ← pyDiv (deaths : ℚ) (pop : ℚ)
  let mortality := round3 (mortality0 * 1000000)
  let confirmedRaw ← getCases totals key_confirmed date
  let confirmed ← coerceCount confirmedRaw
  let lethality0 ← pyDiv (deaths : ℚ) (confirmed : ℚ)
  let lethality := round3 (lethality0 * 100)
  let recoveredRaw ← getCases totals key_recovered date
  let recovered ← coerceCount recoveredRaw
  let active := confirmed - recovered - deaths
  let unknown := pop - confirmed
  let apu0 ← pyDiv (active : ℚ) (unknown : ℚ)
  let apu := round3 apu0
  let app0 ← match popLocal with
    | none => Except.error "NameError"
    | some p => pyDiv (active : ℚ) (p : ℚ)
  let app := round3 (app0 * 100)
  let cpp0 ← pyDiv (confirmed : ℚ) (pop : ℚ)
  let cpp := round3 (cpp0 * 100)
  Except.ok (ratingRecord mortality lethality apu deaths confirmed active
    app cpp pop deathsRaw)

/-- A country record as `calculate_ratings` consumes it: the optional enriched
population and the totals map. -/
structure CountryData where
  population : Option Int
  totals : Totals
  deriving DecidableEq

/-- One iteration of the `calculate_ratings` country loop (lines 340-389):
skip when no population was enriched, skip when below the cutoff, otherwise
compute the record and assign it into the ratings dict. -/
def ratingStep (minPop : Option Int) (date : String)
    (acc : List (String × List (String × RVal))) (p : String × CountryData) :
    Except String (List (String × List (String × RVal))) :=
  match p.2.population with
  | none => Except.ok acc
  | some pop =>
    match minPop with
    | some mp =>
      if pop < mp then Except.ok acc
      else do
        let r ← countryRating pop (some pop) p.2.totals date
        Except.ok (dictSet acc p.1 r)
    | none => do
      let r ← countryRating pop none p.2.totals date
      Except.ok (dictSet acc p.1 r)

/-- Model of `calculate_ratings` (lines 324-390) over an already-chosen target date:
the country loop folded over the data map in iteration order; an uncaught
exception in any country's computation aborts the whole fold. -/
def calculate_ratings (data : List (String × CountryData)) (minPop : Option Int)
    (date : String) : Except String (List (String × List (String × RVal))) :=
  data.foldlM (ratingStep minPop date) []

/-! Ranking (`print_topmost_20`, lines 393-404) and cache invalidation
(`invalidate_cache`, lines 475-492). -/

/-- The five ranked metrics (lines 397-398). -/
def rating_keys : List String :=
  [key_mortality, key_lethality, key_active_per_population,
   key_active_per_unknown, key_confirmed_per_population]

/-- The sort key `lambda item: item[1][rating_key]` (line 401).  For the five
ranked keys the record always holds a number — a rounded metric (rational) or
an integer count — compared by numeric value; the catch-all arm is never hit
on records produced by `calculate_ratings`. -/
def itemKey (k : String) (item : String × List (String × RVal)) : ℚ :=
  match dictGet item.2 k with
  | some (RVal.rat q) => q
  | some (RVal.int n) => (n : ℚ)
  | _ => 0

/-- The comparison used by `sorted(..., key=lambda item: item[1][rating_key])`. -/
def rankLE (k : String) (a b : String × List (String × RVal)) : Prop :=
  itemKey k a ≤ itemKey k b

instance (k : String) : DecidableRel (rankLE k) :=
  fun a b => inferInstanceAs (Decidable (itemKey k a ≤ itemKey k b))

/-- One ranking of `print_topmost_20` (lines 400-404): stable-sort the ratings
items ascending by the metric (Python's `sorted` is a stable sort; a stable
sort is extensionally unique, embedded here as insertion sort), rebuild the
dict from the sorted items, take the last 20 keys (`[-20:]`), reverse. -/
def rankBy (ratings : List (String × List (String × RVal))) (k : String) :
    List String :=
  let sorted := ratings.insertionSort (rankLE k)
  let rating := sorted.foldl (fun d p => dictSet d p.1 p.2) []
  let topmost := (rating.map Prod.fst).drop (rating.length - 20)
  topmost.reverse

/-- Python `s.endswith(suffix)`: the suffix's characters end the string. -/
def strEndsWith (s suffix : String) : Bool :=
  suffix.data.isSuffixOf s.data

/-- Model of `invalidate_cache` (lines 475-492) on the working-directory
listing: the names removed are the entries ending in the cache suffix other
than `valid_hash + file_ext_cache_json` (each `os.remove` is assumed to
succeed, so the early `return` in the `except` clause is never taken). -/
def invalidate_cache (valid_hash : String) (listing : List String) : List String :=
  (listing.filter (fun el => strEndsWith el file_ext_cache_json)).filter
    (fun c => c != valid_hash ++ file_ext_cache_json)

/-- The CLI `invalidate` branch (lines 533-536): `invalidate_cache('')`
followed by `sys.exit(0)`; the removed names paired with the exit status. -/
def cliInvalidate (listing : List String) : List String × Nat :=
  (invalidate_cache "" listing, 0)

/-- A concrete territory record defining all three case-types. -/
def singleTer : Territory :=
  [(key_deaths, [("4/1/20", "1")]), (key_confirmed, [("4/1/20", "2")]),
   (key_recovered, [("4/1/20", "3")])]

/-- The territories of a country that define a given case-type, in iteration
order, each contributing its series for that case-type. -/
def contribsAt (ters : List (String × Territory)) (ct : String) : List Series :=
  ters.filterMap (fun p => dictGet p.2 ct)

/-- The summed parsed values of all entries of a series at one date. -/
def sumAt (s : Series) (d : String) : Int :=
  ((s.filter (fun p => p.1 == d)).map (fun p => pyIntD p.2)).sum

/-- The parsed value of a series at one date (`0` when the date is absent). -/
def parsedAt (s : Series) (d : String) : Int :=
  match dictGet s d with
  | some v => pyIntD v
  | none => 0

/-- Two concrete territories mirroring the spec's worked scenario. -/
def terW1 : Territory :=
  [(key_deaths, [("4/2/20", "10")]), (key_confirmed, [("4/2/20", "100")]),
   (key_recovered, [("4/2/20", "50")])]

def terW2 : Territory :=
  [(key_deaths, [("4/2/20", "5")]), (key_confirmed, [("4/2/20", "50")]),
   (key_recovered, [("4/2/20", "20")])]

def tersW : List (String × Territory) := [(key_mainland, terW1), ("region2", terW2)]

/-- The totals `totalizeCountry` computes for `tersW`. -/
def totalsW : Totals :=
  [(key_deaths, [("4/2/20", PyVal.int 15)]),
   (key_recovered, [("4/2/20", PyVal.int 70)]),
   (key_confirmed, [("4/2/20", PyVal.int 150)])]

/-- A country whose population exactly equals its confirmed count. -/
def cdZero : CountryData :=
  ⟨some 100, [(key_deaths, [("D", PyVal.str "1")]),
    (key_recovered, [("D", PyVal.str "2")]),
    (key_confirmed, [("D", PyVal.str "100")])]⟩

/-- A single-territory-style country: string-typed totals, population 100. -/
def cdTen : CountryData :=
  ⟨some 100, [(key_deaths, [("D", PyVal.str "1")]),
    (key_recovered, [("D", PyVal.str "2")]),
    (key_confirmed, [("D", PyVal.str "10")])]⟩

/-- The record `calculate_ratings` produces for `cdTen` at date `D`. -/
def recW10 : List (String × RVal) :=
  ratingRecord
    (round3 (((1 : Int) : ℚ) / ((100 : Int) : ℚ) * 1000000))
    (round3 (((1 : Int) : ℚ) / ((10 : Int) : ℚ) * 100))
    (round3 (((7 : Int) : ℚ) / ((90 : Int) : ℚ)))
    1 10 7
    (round3 (((7 : Int) : ℚ) / ((100 : Int) : ℚ) * 100))
    (round3 (((10 : Int) : ℚ) / ((100 : Int) : ℚ) * 100))
    100 (PyVal.str "1")

/-! Supporting lemmas for the ranking claims. -/

instance (k : String) : IsTotal (String × List (String × RVal)) (rankLE k) :=
  ⟨fun a b => le_total (itemKey k a) (itemKey k b)⟩

instance (k : String) : IsTrans (String × List (String × RVal)) (rankLE k) :=
  ⟨fun _ _ _ hab hbc => le_trans hab hbc⟩

/-- The metric value a country name carries in a ratings map. -/
def valOf (ratings : List (String × List (String × RVal))) (k c : String) : ℚ :=
  itemKey k (c, (dictGet ratings c).getD [])

/-- A three-country ratings map with distinct mortality values. -/
def ratingsW5 : List (String × List (String × RVal)) :=
  [("A", [(key_mortality, RVal.rat 3)]), ("B", [(key_mortality, RVal.rat 7)]),
   ("C", [(key_mortality, RVal.rat 5)])]

/-- A record with the tied mortality value used by the C6 counterexample. -/
def recT6 : List (String × RVal) := [(key_mortality, RVal.int 1)]

/-- The strict-or-equal comparison by a metric's value; antisymmetric, which
the tie-free re-ranking argument needs. -/
def rankStrictEq (k : String) (a b : String × List (String × RVal)) : Prop :=
  itemKey k a < itemKey k b ∨ a = b

instance (k : String) : IsAntisymm (String × List (String × RVal)) (rankStrictEq k) :=
  ⟨by
    intro a b hab hba
    rcases hab with h1 | h1
    · rcases hba with h2 | h2
      · exact absurd (lt_trans h1 h2) (lt_irrefl _)
      · exact h2.symm
    · exact h1⟩

@[simp] theorem dictGet_nil {β : Type} (k : String) :
    dictGet ([] : List (String × β)) k = none := rfl

@[simp] theorem dictGet_cons {β : Type} (p : String × β) (ps : List (String × β)) (k : String) :
    dictGet (p :: ps) k = if p.1 == k then some p.2 else dictGet ps k := rfl

theorem dictGet_dictSet_self {β : Type} (d : List (String × β)) (k : String) (v : β) :
    dictGet (dictSet d k v) k = some v := by
  induction d with
  | nil => simp [dictSet]
  | cons p ps ih =>
    by_cases h : p.1 = k
    · simp [dictSet, h]
    · simp [dictSet, h, ih]

theorem dictGet_dictSet_ne {β : Type} (d : List (String × β)) (k k' : String) (v : β)
    (h : k' ≠ k) : dictGet (dictSet d k v) k' = dictGet d k' := by
  induction d with
  | nil => simp [dictSet, Ne.symm h]
  | cons p ps ih =>
    by_cases hp : p.1 = k
    · subst hp
      simp [dictSet, Ne.symm h]
    · by_cases hp' : p.1 = k'
      · simp [dictSet, hp, hp', h]
      · simp [dictSet, hp, hp', ih]

theorem mem_keys_of_dictGet {β : Type} {d : List (String × β)} {k : String} {v : β}
    (h : dictGet d k = some v) : k ∈ d.map Prod.fst := by
  induction d with
  | nil => simp at h
  | cons p ps ih =>
    by_cases hp : p.1 = k
    · simp [hp]
    · simp only [dictGet_cons, hp, beq_iff_eq, if_neg hp] at h
      simp [ih h]

theorem dictGet_of_mem_nodup {β : Type} {d : List (String × β)} {k : String} {v : β}
    (hmem : (k, v) ∈ d) (hnd : (d.map Prod.fst).Nodup) : dictGet d k = some v := by
  induction d with
  | nil => simp at hmem
  | cons p ps ih =>
    simp only [List.map_cons, List.nodup_cons] at hnd
    rcases List.mem_cons.mp hmem with h | h
    · subst h
      simp
    · have hk : p.1 ≠ k := by
        intro he
        exact hnd.1 (he ▸ (List.mem_map.mpr ⟨(k, v), h, rfl⟩))
      simp [hk, ih h hnd.2]

theorem dictSet_of_not_mem {β : Type} {d : List (String × β)} {k : String} (v : β)
    (h : k ∉ d.map Prod.fst) : dictSet d k v = d ++ [(k, v)] := by
  induction d with
  | nil => simp [dictSet]
  | cons p ps ih =>
    simp only [List.map_cons, List.mem_cons] at h
    push_neg at h
    simp [dictSet, Ne.symm h.1, ih h.2]

/-- Rebuilding a dict from an association list with distinct keys (as the dict
comprehension on line 401 of `stats.py` does) reproduces the list itself. -/
theorem foldl_dictSet_eq {β : Type} (l acc : List (String × β))
    (hnd : (l.map Prod.fst).Nodup)
    (hdisj : ∀ k ∈ l.map Prod.fst, k ∉ acc.map Prod.fst) :
    l.foldl (fun d p => dictSet d p.1 p.2) acc = acc ++ l := by
  induction l generalizing acc with
  | nil => simp
  | cons p ps ih =>
    simp only [List.map_cons, List.nodup_cons] at hnd
    have hset : dictSet acc p.1 p.2 = acc ++ [p] := by
      rw [dictSet_of_not_mem]
      exact hdisj p.1 (by simp)
    simp only [List.foldl_cons, hset]
    rw [ih (acc ++ [p]) hnd.2]
    · simp
    · intro k hk
      simp only [List.map_append, List.mem_append] at *
      push_neg
      refine ⟨fun hka => hdisj k (by simp [hk]) hka, ?_⟩
      simp only [List.map_cons, List.map_nil, List.mem_singleton]
      intro he
      exact hnd.1 (he ▸ hk)

/-! Theorems for the claims, with their supporting lemmas. -/

/-- C9 counterexample: with a file named exactly `.cache.json` in the listing
— a name that does end with the cache suffix — the CLI `invalidate` branch
removes nothing, because `invalidate_cache('')` spares any name equal to the
empty revision identifier plus the suffix. -/
theorem c9_counterexample :
    cliInvalidate [".cache.json"] = ([], 0) ∧
    strEndsWith ".cache.json" file_ext_cache_json = true := by decide

/-- C9 (amended): the CLI `invalidate` argument removes every file whose name
ends with the cache suffix except one named exactly `.cache.json` (the empty
revision identifier concatenated with the suffix), regardless of the current
revision identifier, and exits with status zero. -/
theorem c9_cli_invalidate (listing : List String) :
    cliInvalidate listing =
      (listing.filter (fun f => f != file_ext_cache_json &&
        strEndsWith f file_ext_cache_json), 0) := by
  unfold cliInvalidate invalidate_cache
  rw [List.filter_filter]
  rfl

/-- Series part of `row2dict`: with distinct header cells, the dict built by
the index loop is exactly the zipped overlap of header and row past the four
fixed columns. -/
theorem row2dict_series_eq (row header : List String) (hnd : header.Nodup) :
    (List.range' 4 (min header.length row.length - 4)).foldl
      (fun d i => dictSet d (header.getD i "") (row.getD i "")) [] =
    (header.zip row).drop 4 := by
  have hlt : ∀ i ∈ List.range' 4 (min header.length row.length - 4),
      4 ≤ i ∧ i < header.length ∧ i < row.length := by
    intro i hi
    rw [List.mem_range'_1] at hi
    omega
  have h1 : (List.range' 4 (min header.length row.length - 4)).foldl
      (fun d i => dictSet d (header.getD i "") (row.getD i "")) [] =
      ((List.range' 4 (min header.length row.length - 4)).map
        (fun i => (header.getD i "", row.getD i ""))).foldl
        (fun d p => dictSet d p.1 p.2) [] := by
    rw [List.foldl_map]
  rw [h1]
  rw [foldl_dictSet_eq]
  · apply List.ext_getElem
    · simp [List.length_zip]
    · intro j hj hj'
      simp only [List.nil_append, List.length_map, List.length_range'] at hj
      have hjh : 4 + j < header.length := by omega
      have hjr : 4 + j < row.length := by omega
      simp only [List.nil_append, List.getElem_map, List.getElem_range'_1,
        List.getElem_drop, List.getElem_zip]
      rw [List.getD_eq_getElem header "" hjh, List.getD_eq_getElem row "" hjr]
  · simp only [List.map_map]
    refine List.Nodup.map_on ?_ (List.nodup_range' 4 (min header.length row.length - 4))
    intro i hi j hj hij
    obtain ⟨hi4, hih, _⟩ := hlt i hi
    obtain ⟨hj4, hjh, _⟩ := hlt j hj
    simp only [Function.comp] at hij
    rw [List.getD_eq_getElem header "" hih, List.getD_eq_getElem header "" hjh] at hij
    exact (List.Nodup.getElem_inj_iff hnd).mp hij
  · simp

/-- C8: `row2dict` copies only the columns present in both the row and the
header — the four fixed fields plus the dated columns from index 4 up to the
shorter of the two, keyed by the header cell (silent truncation) — and
returns an IndexError exactly when the row has fewer than the four fixed
columns. -/
theorem c8_row2dict_truncation (row header : List String) :
    (row2dict row header = none ↔ row.length < 4) ∧
    ∀ t, row2dict row header = some t →
      t.province = row.getD 0 "" ∧ t.country = row.getD 1 "" ∧
      t.lat = row.getD 2 "" ∧ t.lon = row.getD 3 "" ∧
      (header.Nodup → t.series = (header.zip row).drop 4) := by
  rcases row with _ | ⟨a, row⟩
  · exact ⟨by simp [row2dict], by intro t ht; simp [row2dict] at ht⟩
  rcases row with _ | ⟨b, row⟩
  · exact ⟨by simp [row2dict], by intro t ht; simp [row2dict] at ht⟩
  rcases row with _ | ⟨c, row⟩
  · exact ⟨by simp [row2dict], by intro t ht; simp [row2dict] at ht⟩
  rcases row with _ | ⟨e, row⟩
  · exact ⟨by simp [row2dict], by intro t ht; simp [row2dict] at ht⟩
  constructor
  · constructor
    · intro h
      simp [row2dict] at h
    · intro h
      exact absurd h (by simp only [List.length_cons]; omega)
  · intro t ht
    simp only [row2dict, Option.some.injEq] at ht
    subst ht
    exact ⟨rfl, rfl, rfl, rfl, fun hnd => row2dict_series_eq _ _ hnd⟩

/-- Witness for C8 on a concrete row two cells shorter than the header. -/
theorem c8_witness :
    (⟨"p", "c", "la", "lo", [("d1", "7"), ("d2", "8")]⟩ : TerritoryRow).series =
      (["Province", "Country", "Lat", "Long", "d1", "d2", "d3"].zip
        ["p", "c", "la", "lo", "7", "8"]).drop 4 :=
  ((c8_row2dict_truncation ["p", "c", "la", "lo", "7", "8"]
      ["Province", "Country", "Lat", "Long", "d1", "d2", "d3"]).2
    ⟨"p", "c", "la", "lo", [("d1", "7"), ("d2", "8")]⟩ (by rfl)).2.2.2.2 (by decide)

/-- C2 counterexample: a country with exactly one territory named `region1`
(not the sentinel `mainland`).  The claim says its totals become the
territory's series verbatim regardless of the territory's name; instead the
single-territory branch looks up the literal key `'mainland'` and raises a
KeyError, producing no totals at all. -/
theorem c2_counterexample :
    totalizeCountry [("region1", singleTer)] = Except.error "KeyError" := by rfl

/-- C2 (amended): for a country with exactly one territory, the totals for
every case-type become that territory's series verbatim (string-typed, no
summation) and the territory map is dropped, provided the single territory is
keyed by the sentinel name `mainland` and defines all three case-types; a
single territory under any other name makes totalization raise a KeyError
instead. -/
theorem c2_single_territory_mainland (t : Territory) (sd sc sr : Series)
    (hd : dictGet t key_deaths = some sd)
    (hc : dictGet t key_confirmed = some sc)
    (hr : dictGet t key_recovered = some sr) :
    totalizeCountry [(key_mainland, t)] =
      Except.ok (none, [(key_deaths, strSeries sd), (key_recovered, strSeries sr),
        (key_confirmed, strSeries sc)]) := by
  have h1 : ¬ (1 < ([(key_mainland, t)] : List (String × Territory)).length) := by simp
  simp [totalizeCountry, h1, hd, hc, hr]

/-- Witness for C2 (amended) on a concrete single-territory country. -/
theorem c2_witness :
    totalizeCountry [(key_mainland, singleTer)] =
      Except.ok (none, [(key_deaths, strSeries [("4/1/20", "1")]),
        (key_recovered, strSeries [("4/1/20", "3")]),
        (key_confirmed, strSeries [("4/1/20", "2")])]) :=
  c2_single_territory_mainland singleTer _ _ _ (by decide) (by decide) (by decide)

/-- C3: a country name carried by the literal population-override table, not
recognized by the lookup service, and without a viable redirect, is assigned
exactly the literal override population.  (Every key of
`exceptional_populations` sits in `exceptional_names` with an explicit
no-redirect marker, so the rename tier always falls through to the override.) -/
theorem c3_literal_override (service : String → Option Int) (country : String) (p : Int)
    (hov : dictGet exceptional_populations country = some p)
    (hsvc : service country = none)
    (hred : ∀ r : String, dictGet exceptional_names country = some (some r) →
      service r = none) :
    enrichPopulation service country = EnrichResult.population p := by
  have hmem := mem_keys_of_dictGet hov
  have hren : dictGet exceptional_names country = some none := by
    simp only [exceptional_populations, List.map_cons, List.map_nil] at hmem
    fin_cases hmem <;> decide
  simp [enrichPopulation, hsvc, hren, exceptionalFallback, hov]

/-- Witness for C3: Andorra with a lookup service that recognizes nothing. -/
theorem c3_witness :
    enrichPopulation (fun _ => none) "Andorra" = EnrichResult.population 77543 :=
  c3_literal_override (fun _ => none) "Andorra" 77543 (by decide) rfl (fun _ _ => rfl)

/-- C7 counterexample: a country name unrecognized by the service and absent
from both fallback tables is left without a population, but it is NOT appended
to the diagnostic missing list — the append sits inside the
`country in exceptional_names` branch, so a name outside the rename table
falls through silently. -/
theorem c7_counterexample :
    enrichPopulation (fun _ => none) "Atlantis" = EnrichResult.skipped ∧
    EnrichResult.skipped ≠ EnrichResult.missing := by decide

/-- C7 (amended): when all three enrichment paths fail, the country is left
without a population and is excluded from metric calculation (the ratings loop
skips it), but it is appended to the missing list exactly when its name
appears in the exceptional-name rename table; an unrecognized name absent from
all tables is skipped without being recorded. -/
theorem c7_lookup_miss (service : String → Option Int) (country : String)
    (hsvc : service country = none)
    (hred : ∀ r : String, dictGet exceptional_names country = some (some r) →
      service r = none)
    (hov : dictGet exceptional_populations country = none) :
    (enrichPopulation service country =
      if (dictGet exceptional_names country).isSome then EnrichResult.missing
      else EnrichResult.skipped) ∧
    (∀ minPop date acc totals,
      ratingStep minPop date acc (country, CountryData.mk none totals) =
        Except.ok acc) := by
  constructor
  · cases hex : dictGet exceptional_names country with
    | none => simp [enrichPopulation, hsvc, hex]
    | some exName =>
      cases exName with
      | none => simp [enrichPopulation, hsvc, hex, exceptionalFallback, hov]
      | some r =>
        have hsr := hred r hex
        simp [enrichPopulation, hsvc, hex, hsr, exceptionalFallback, hov]
  · intro minPop date acc totals
    rfl

/-- Witness for C7 (amended): `MS Zaandam` sits in the rename table with a
no-redirect marker and has no override, so it lands in the missing list and
contributes nothing to the ratings. -/
theorem c7_witness :
    (enrichPopulation (fun _ => none) "MS Zaandam" =
      if (dictGet exceptional_names "MS Zaandam").isSome then EnrichResult.missing
      else EnrichResult.skipped) ∧
    (∀ minPop date acc totals,
      ratingStep minPop date acc ("MS Zaandam", CountryData.mk none totals) =
        Except.ok acc) :=
  c7_lookup_miss (fun _ => none) "MS Zaandam" rfl (fun _ _ => rfl) (by decide)

/-! Supporting lemmas for the multi-territory totalization claim. -/

theorem exceptOkBind {ε α β : Type} (a : α) (f : α → Except ε β) :
    (Except.ok a >>= f) = f a := rfl

theorem exceptErrorBind {ε α β : Type} (e : ε) (f : α → Except ε β) :
    ((Except.error e : Except ε α) >>= f) = Except.error e := rfl

theorem pyInt_ok_pyIntD {v : String} {n : Int} (h : pyInt v = Except.ok n) :
    pyIntD v = n := by
  unfold pyInt at h
  unfold pyIntD
  cases hc : pyIntCore v.data with
  | none => rw [hc] at h; exact absurd h (by simp)
  | some m => rw [hc] at h; simp at h; simp [h]

theorem sumAt_cons (p : String × String) (s : Series) (d : String) :
    sumAt (p :: s) d = (if p.1 = d then pyIntD p.2 else 0) + sumAt s d := by
  by_cases h : p.1 = d <;> simp [sumAt, List.filter_cons, h]

theorem sumAt_eq_zero {s : Series} {d : String}
    (h : ¬ s.any (fun p => p.1 == d) = true) : sumAt s d = 0 := by
  simp only [List.any_eq_true, beq_iff_eq, not_exists, not_and] at h
  unfold sumAt
  have : s.filter (fun p => p.1 == d) = [] := by
    rw [List.filter_eq_nil_iff]
    intro a ha
    simp [h a ha]
  simp [this]

theorem addSeries_get (s : Series) (acc acc' : List (String × Int)) (d : String)
    (h : addSeries acc s = Except.ok acc') :
    dictGet acc' d = if s.any (fun p => p.1 == d)
      then some ((dictGet acc d).getD 0 + sumAt s d)
      else dictGet acc d := by
  induction s generalizing acc with
  | nil =>
    simp only [addSeries, List.foldlM_nil] at h
    have he : acc = acc' := Except.ok.inj h
    subst he
    simp
  | cons p s ih =>
    simp only [addSeries, List.foldlM_cons] at h ih
    cases hn : pyInt p.2 with
    | error e =>
      rw [hn] at h
      simp only [exceptErrorBind] at h
      exact absurd h (by simp)
    | ok n =>
      rw [hn] at h
      have hpyd := pyInt_ok_pyIntD hn
      by_cases hpd : p.1 = d
      · subst hpd
        have hconsany : ((p :: s).any fun q => q.1 == p.1) = true := by simp
        rw [if_pos hconsany]
        have hsc : sumAt (p :: s) p.1 = n + sumAt s p.1 := by
          rw [sumAt_cons, hpyd]
          simp
        cases hacc : dictGet acc p.1 with
        | none =>
          rw [hacc] at h
          simp only [exceptOkBind] at h
          have ihh := ih (dictSet acc p.1 n) h
          rw [dictGet_dictSet_self acc p.1 n] at ihh
          rw [ihh, hsc]
          by_cases hs : (s.any fun q => q.1 == p.1) = true
          · rw [if_pos hs]
            simp only [Option.getD_some, Option.getD_none, Option.some.injEq]
            omega
          · rw [if_neg hs]
            rw [sumAt_eq_zero hs]
            simp only [Option.getD_none, Option.some.injEq]
            omega
        | some m =>
          rw [hacc] at h
          simp only [exceptOkBind] at h
          have ihh := ih (dictSet acc p.1 (m + n)) h
          rw [dictGet_dictSet_self acc p.1 (m + n)] at ihh
          rw [ihh, hsc]
          by_cases hs : (s.any fun q => q.1 == p.1) = true
          · rw [if_pos hs]
            simp only [Option.getD_some, Option.some.injEq]
            omega
          · rw [if_neg hs]
            rw [sumAt_eq_zero hs]
            simp only [Option.getD_some, Option.some.injEq]
            omega
      · have hbd : (p.1 == d) = false := by simp [hpd]
        have hconsany : ((p :: s).any fun q => q.1 == d) = (s.any fun q => q.1 == d) := by
          simp [List.any_cons, hbd]
        rw [hconsany]
        have hsum : sumAt (p :: s) d = sumAt s d := by
          rw [sumAt_cons, if_neg hpd]
          omega
        rw [hsum]
        cases hacc : dictGet acc p.1 with
        | none =>
          rw [hacc] at h
          simp only [exceptOkBind] at h
          have ihh := ih (dictSet acc p.1 n) h
          rw [dictGet_dictSet_ne acc p.1 d n (Ne.symm hpd)] at ihh
          exact ihh
        | some m =>
          rw [hacc] at h
          simp only [exceptOkBind] at h
          have ihh := ih (dictSet acc p.1 (m + n)) h
          rw [dictGet_dictSet_ne acc p.1 d (m + n) (Ne.symm hpd)] at ihh
          exact ihh

theorem totalsFold_get (ters : List (String × Territory)) (ct d : String)
    (acc tot : List (String × Int))
    (h : ters.foldlM (totalsFoldStep ct) acc = Except.ok tot) :
    dictGet tot d = if (contribsAt ters ct).any (fun s => s.any (fun p => p.1 == d))
      then some ((dictGet acc d).getD 0 +
        ((contribsAt ters ct).map (fun s => sumAt s d)).sum)
      else dictGet acc d := by
  induction ters generalizing acc with
  | nil =>
    simp only [List.foldlM_nil] at h
    have he : acc = tot := Except.ok.inj h
    subst he
    simp [contribsAt]
  | cons q ters ih =>
    rw [List.foldlM_cons] at h
    cases hq : dictGet q.2 ct with
    | none =>
      have h' : ters.foldlM (totalsFoldStep ct) acc = Except.ok tot := by
        rw [show totalsFoldStep ct acc q = Except.ok acc from by
          simp [totalsFoldStep, hq]] at h
        exact h
      have hcon : contribsAt (q :: ters) ct = contribsAt ters ct := by
        simp [contribsAt, List.filterMap_cons, hq]
      rw [hcon]
      exact ih acc h'
    | some s =>
      cases has : addSeries acc s with
      | error e =>
        rw [show totalsFoldStep ct acc q = Except.error e from by
          simp [totalsFoldStep, hq, has]] at h
        simp only [exceptErrorBind] at h
        exact absurd h (by simp)
      | ok acc1 =>
        rw [show totalsFoldStep ct acc q = Except.ok acc1 from by
          simp [totalsFoldStep, hq, has]] at h
        simp only [exceptOkBind] at h
        have hstep := addSeries_get s acc acc1 d has
        have hrest := ih acc1 h
        have hcon : contribsAt (q :: ters) ct = s :: contribsAt ters ct := by
          simp [contribsAt, List.filterMap_cons, hq]
        rw [hcon, hrest, hstep]
        by_cases hs : (s.any fun p => p.1 == d) = true
        · rw [if_pos hs]
          have hca : ((s :: contribsAt ters ct).any
              fun s => (s.any fun p => p.1 == d)) = true := by
            simp [List.any_cons, hs]
          rw [if_pos hca]
          by_cases hr : ((contribsAt ters ct).any
              fun s => (s.any fun p => p.1 == d)) = true
          · rw [if_pos hr]
            simp only [Option.getD_some, List.map_cons, List.sum_cons, Option.some.injEq]
            omega
          · rw [if_neg hr]
            have hz : ((contribsAt ters ct).map (fun s => sumAt s d)).sum = 0 := by
              apply List.sum_eq_zero
              intro x hx
              rw [List.mem_map] at hx
              obtain ⟨s', hs', rfl⟩ := hx
              apply sumAt_eq_zero
              intro hany
              exact hr (List.any_eq_true.mpr ⟨s', hs', hany⟩)
            simp only [List.map_cons, List.sum_cons, hz, Option.some.injEq]
            omega
        · rw [if_neg hs]
          have hz : sumAt s d = 0 := sumAt_eq_zero hs
          have hca : ((s :: contribsAt ters ct).any
              fun s => (s.any fun p => p.1 == d)) = ((contribsAt ters ct).any
              fun s => (s.any fun p => p.1 == d)) := by
            simp only [List.any_cons]
            rw [show (s.any fun p => p.1 == d) = false from Bool.eq_false_iff.mpr hs]
            simp
          rw [hca]
          by_cases hr : ((contribsAt ters ct).any
              fun s => (s.any fun p => p.1 == d)) = true
          · rw [if_pos hr, if_pos hr]
            simp only [List.map_cons, List.sum_cons, hz, Option.some.injEq]
            omega
          · rw [if_neg hr, if_neg hr]

theorem totalsForType_get (ters : List (String × Territory)) (ct d : String)
    (tot : List (String × Int))
    (h : totalsForType ters ct = Except.ok tot) :
    dictGet tot d = if (contribsAt ters ct).any (fun s => s.any (fun p => p.1 == d))
      then some (((contribsAt ters ct).map (fun s => sumAt s d)).sum)
      else none := by
  have := totalsFold_get ters ct d [] tot h
  simpa using this

theorem dictGet_intSeries (s : List (String × Int)) (d : String) :
    dictGet (intSeries s) d = (dictGet s d).map PyVal.int := by
  induction s with
  | nil => simp [intSeries]
  | cons p ps ih =>
    rw [show intSeries (p :: ps) = (p.1, PyVal.int p.2) :: intSeries ps from rfl]
    by_cases h : p.1 = d <;> simp [h, ih]

theorem sumAt_eq_parsedAt (s : Series) (d : String)
    (hnd : (s.map Prod.fst).Nodup) : sumAt s d = parsedAt s d := by
  induction s with
  | nil => simp [sumAt, parsedAt]
  | cons p ps ih =>
    simp only [List.map_cons, List.nodup_cons] at hnd
    by_cases h : p.1 = d
    · have hz : sumAt ps d = 0 := by
        apply sumAt_eq_zero
        intro hany
        rw [List.any_eq_true] at hany
        obtain ⟨q, hq, hqd⟩ := hany
        simp only [beq_iff_eq] at hqd
        exact hnd.1 (by
          rw [← h, ← hqd] at *
          exact List.mem_map.mpr ⟨q, hq, rfl⟩)
      have hp : parsedAt (p :: ps) d = pyIntD p.2 := by
        unfold parsedAt
        rw [show dictGet (p :: ps) d = some p.2 from by simp [h]]
      rw [sumAt_cons, if_pos h, hz, hp]
      omega
    · have hp : parsedAt (p :: ps) d = parsedAt ps d := by
        unfold parsedAt
        rw [show dictGet (p :: ps) d = dictGet ps d from by simp [h]]
      rw [sumAt_cons, if_neg h, hp, ih hnd.2]
      omega

/-- C1: for a country with more than one territory, each case-type's totals at
each date equal the integer sum, over exactly the territories whose record
defines that case-type, of the parsed-to-integer count at that date; a
territory lacking the case-type contributes nothing (it is skipped, not
zero-filled and not an error).  Hypotheses: totalization succeeded, at least
one territory defines the case-type, every defining territory carries the date
(with distinct date keys, as CSV-derived series do). -/
theorem c1_multi_territory_totals (ters : List (String × Territory)) (ct d : String)
    (ot : Option (List (String × Territory))) (totals : Totals)
    (hlen : 1 < ters.length)
    (hct : ct ∈ case_types)
    (hok : totalizeCountry ters = Except.ok (ot, totals))
    (hne : contribsAt ters ct ≠ [])
    (hdate : ∀ s ∈ contribsAt ters ct, (s.any fun p => p.1 == d) = true)
    (hnd : ∀ s ∈ contribsAt ters ct, (s.map Prod.fst).Nodup) :
    ∃ ser, dictGet totals ct = some ser ∧
      dictGet ser d = some (PyVal.int
        (((contribsAt ters ct).map (fun s => parsedAt s d)).sum)) := by
  have hany : ((contribsAt ters ct).any fun s => (s.any fun p => p.1 == d)) = true := by
    cases hc : contribsAt ters ct with
    | nil => exact absurd hc hne
    | cons sh st =>
      have hh := hdate sh (by rw [hc]; exact List.mem_cons_self sh st)
      simp [List.any_cons, hh]
  have hsum : ((contribsAt ters ct).map (fun s => sumAt s d)).sum =
      ((contribsAt ters ct).map (fun s => parsedAt s d)).sum := by
    apply congrArg List.sum
    apply List.map_congr_left
    intro s hs
    exact sumAt_eq_parsedAt s d (hnd s hs)
  unfold totalizeCountry at hok
  rw [if_pos hlen] at hok
  cases h1 : totalsForType ters key_deaths with
  | error e =>
    rw [h1] at hok
    simp only [exceptErrorBind] at hok
    exact absurd hok (by simp)
  | ok d0 =>
    rw [h1] at hok
    simp only [exceptOkBind] at hok
    cases h2 : totalsForType ters key_confirmed with
    | error e =>
      rw [h2] at hok
      simp only [exceptErrorBind] at hok
      exact absurd hok (by simp)
    | ok c0 =>
      rw [h2] at hok
      simp only [exceptOkBind] at hok
      cases h3 : totalsForType ters key_recovered with
      | error e =>
        rw [h3] at hok
        simp only [exceptErrorBind] at hok
        exact absurd hok (by simp)
      | ok r0 =>
        rw [h3] at hok
        simp only [exceptOkBind] at hok
        have hpair := Except.ok.inj hok
        have htot : totals = [(key_deaths, intSeries d0), (key_recovered, intSeries r0),
            (key_confirmed, intSeries c0)] := (congrArg Prod.snd hpair).symm
        subst htot
        have hctc : ct = key_deaths ∨ ct = key_confirmed ∨ ct = key_recovered := by
          simpa [case_types] using hct
        rcases hctc with rfl | rfl | rfl
        · refine ⟨intSeries d0, rfl, ?_⟩
          rw [dictGet_intSeries, totalsForType_get ters key_deaths d d0 h1, if_pos hany]
          simp only [Option.map_some']
          rw [hsum]
        · refine ⟨intSeries c0, rfl, ?_⟩
          rw [dictGet_intSeries, totalsForType_get ters key_confirmed d c0 h2, if_pos hany]
          simp only [Option.map_some']
          rw [hsum]
        · refine ⟨intSeries r0, rfl, ?_⟩
          rw [dictGet_intSeries, totalsForType_get ters key_recovered d r0 h3, if_pos hany]
          simp only [Option.map_some']
          rw [hsum]

/-- Witness for C1 on the two-territory country (confirmed 100 + 50 = 150). -/
theorem c1_witness :
    ∃ ser, dictGet totalsW key_confirmed = some ser ∧
      dictGet ser "4/2/20" = some (PyVal.int
        (((contribsAt tersW key_confirmed).map (fun s => parsedAt s "4/2/20")).sum)) :=
  c1_multi_territory_totals tersW key_confirmed "4/2/20" (some tersW) totalsW
    (by decide) (by decide) (by rfl) (by decide) (by decide) (by decide)

theorem countryRating_div_zero (pop : Int) (popLocal : Option Int) (totals : Totals)
    (date : String) (dv cv rv : PyVal) (dn rm : Int)
    (hpop0 : pop ≠ 0)
    (hd : getCases totals key_deaths date = Except.ok dv)
    (hdn : coerceCount dv = Except.ok dn)
    (hc : getCases totals key_confirmed date = Except.ok cv)
    (hcn : coerceCount cv = Except.ok pop)
    (hr : getCases totals key_recovered date = Except.ok rv)
    (hrm : coerceCount rv = Except.ok rm) :
    countryRating pop popLocal totals date = Except.error "ZeroDivisionError" := by
  have hnz : ¬ ((pop : ℚ) = 0) := by exact_mod_cast hpop0
  have hz : ((pop - pop : Int) : ℚ) = 0 := by push_cast; ring
  unfold countryRating
  rw [hd]
  simp only [exceptOkBind]
  rw [hdn]
  simp only [exceptOkBind]
  rw [show pyDiv (dn : ℚ) (pop : ℚ) = Except.ok ((dn : ℚ) / (pop : ℚ)) from by
    unfold pyDiv
    rw [if_neg hnz]]
  simp only [exceptOkBind]
  rw [hc]
  simp only [exceptOkBind]
  rw [hcn]
  simp only [exceptOkBind]
  rw [hr]
  simp only [exceptOkBind]
  rw [hrm]
  simp only [exceptOkBind]
  rw [show pyDiv ((pop - rm - dn : Int) : ℚ) ((pop - pop : Int) : ℚ) =
      Except.error "ZeroDivisionError" from by
    unfold pyDiv
    rw [if_pos hz]]
  simp only [exceptErrorBind]
  rw [show pyDiv (dn : ℚ) (pop : ℚ) = Except.ok ((dn : ℚ) / (pop : ℚ)) from by
    unfold pyDiv
    rw [if_neg hnz]]
  simp only [exceptOkBind]

theorem calcFold_ok (data : List (String × CountryData)) (minPop : Option Int)
    (date : String) (acc out : List (String × List (String × RVal)))
    (h : data.foldlM (ratingStep minPop date) acc = Except.ok out) :
    ∀ c cd pop, (c, cd) ∈ data → cd.population = some pop →
      (∀ mp, minPop = some mp → ¬ pop < mp) →
      ∃ r, countryRating pop (minPop.map fun _ => pop) cd.totals date =
        Except.ok r := by
  induction data generalizing acc with
  | nil =>
    intro c cd pop hm
    simp at hm
  | cons q data ih =>
    rw [List.foldlM_cons] at h
    intro c cd pop hm hpop helig
    cases hstep : ratingStep minPop date acc q with
    | error e =>
      rw [hstep] at h
      simp only [exceptErrorBind] at h
      exact absurd h (by simp)
    | ok acc1 =>
      rw [hstep] at h
      simp only [exceptOkBind] at h
      rcases List.mem_cons.mp hm with heq | hmem
      · have hq : q = (c, cd) := heq.symm
        subst hq
        cases minPop with
        | none =>
          simp only [ratingStep, hpop] at hstep
          cases hcr : countryRating pop none cd.totals date with
          | error e =>
            rw [hcr] at hstep
            simp only [exceptErrorBind] at hstep
            exact absurd hstep (by simp)
          | ok r =>
            exact ⟨r, by simpa using hcr⟩
        | some mp =>
          simp only [ratingStep, hpop, if_neg (helig mp rfl)] at hstep
          cases hcr : countryRating pop (some pop) cd.totals date with
          | error e =>
            rw [hcr] at hstep
            simp only [exceptErrorBind] at hstep
            exact absurd hstep (by simp)
          | ok r =>
            exact ⟨r, by simpa using hcr⟩
      · exact ih acc1 h c cd pop hmem hpop helig

/-- C4: an eligible country whose population equals its integer-coerced
confirmed count at the target date (so `unknown = population - confirmed = 0`)
makes the per-country metric computation raise an uncaught ZeroDivisionError
at active-per-unknown, and the error is not caught or converted into a skip:
the whole `calculate_ratings` fold cannot return a result. -/
theorem c4_active_per_unknown_div_zero
    (data : List (String × CountryData)) (minPop : Option Int) (date c : String)
    (cd : CountryData) (pop : Int)
    (hmem : (c, cd) ∈ data)
    (hpop : cd.population = some pop)
    (helig : ∀ mp, minPop = some mp → ¬ pop < mp)
    (hpop0 : pop ≠ 0)
    (hd : ∃ v n, getCases cd.totals key_deaths date = Except.ok v ∧
      coerceCount v = Except.ok n)
    (hc : ∃ v, getCases cd.totals key_confirmed date = Except.ok v ∧
      coerceCount v = Except.ok pop)
    (hr : ∃ v m, getCases cd.totals key_recovered date = Except.ok v ∧
      coerceCount v = Except.ok m) :
    (∀ popLocal, countryRating pop popLocal cd.totals date =
      Except.error "ZeroDivisionError") ∧
    ∀ out, calculate_ratings data minPop date ≠ Except.ok out := by
  obtain ⟨dv, dn, hdv, hdn⟩ := hd
  obtain ⟨cv, hcv, hcn⟩ := hc
  obtain ⟨rv, rm, hrv, hrm⟩ := hr
  have hcr : ∀ popLocal, countryRating pop popLocal cd.totals date =
      Except.error "ZeroDivisionError" :=
    fun popLocal => countryRating_div_zero pop popLocal cd.totals date
      dv cv rv dn rm hpop0 hdv hdn hcv hcn hrv hrm
  refine ⟨hcr, ?_⟩
  intro out hok
  have hok' : data.foldlM (ratingStep minPop date) [] = Except.ok out := hok
  obtain ⟨r, hr'⟩ := calcFold_ok data minPop date [] out hok' c cd pop hmem hpop helig
  rw [hcr _] at hr'
  exact absurd hr' (by simp)

/-- Witness for C4 on a one-country data map with `population = confirmed`. -/
theorem c4_witness :
    countryRating 100 none cdZero.totals "D" = Except.error "ZeroDivisionError" ∧
    calculate_ratings [("X", cdZero)] none "D" ≠ Except.ok [] := by
  have h := c4_active_per_unknown_div_zero [("X", cdZero)] none "D" "X" cdZero 100
    (by decide) rfl (fun mp hmp => by cases hmp) (by decide)
    ⟨PyVal.str "1", 1, rfl, rfl⟩ ⟨PyVal.str "100", rfl, rfl⟩
    ⟨PyVal.str "2", 2, rfl, rfl⟩
  exact ⟨h.1 none, h.2 []⟩

theorem exceptBind_ok_ex {ε α β : Type} {x : Except ε α} {f : α → Except ε β} {b : β}
    (h : (x >>= f) = Except.ok b) : ∃ a, x = Except.ok a ∧ f a = Except.ok b := by
  cases x with
  | error e => simp only [exceptErrorBind] at h; exact absurd h (by simp)
  | ok a => exact ⟨a, rfl, h⟩

theorem ratingRecord_deaths (mort leth apu : ℚ) (deaths confirmed active : Int)
    (app cpp : ℚ) (pop : Int) (deathsRaw : PyVal) :
    dictGet (ratingRecord mort leth apu deaths confirmed active app cpp pop deathsRaw)
      key_deaths = some (rvalOfPy deathsRaw) :=
  dictGet_dictSet_self _ key_deaths _

theorem countryRating_deaths_raw (pop : Int) (popLocal : Option Int) (totals : Totals)
    (date : String) (rec : List (String × RVal))
    (hok : countryRating pop popLocal totals date = Except.ok rec) :
    ∃ raw, getCases totals key_deaths date = Except.ok raw ∧
      dictGet rec key_deaths = some (rvalOfPy raw) := by
  unfold countryRating at hok
  obtain ⟨raw, hraw, hok⟩ := exceptBind_ok_ex hok
  obtain ⟨deaths, hdeaths, hok⟩ := exceptBind_ok_ex hok
  obtain ⟨m0, hm0, hok⟩ := exceptBind_ok_ex hok
  obtain ⟨cRaw, hcRaw, hok⟩ := exceptBind_ok_ex hok
  obtain ⟨confirmed, hconf, hok⟩ := exceptBind_ok_ex hok
  obtain ⟨l0, hl0, hok⟩ := exceptBind_ok_ex hok
  obtain ⟨rRaw, hrRaw, hok⟩ := exceptBind_ok_ex hok
  obtain ⟨recovered, hrec2, hok⟩ := exceptBind_ok_ex hok
  obtain ⟨a0, ha0, hok⟩ := exceptBind_ok_ex hok
  cases popLocal with
  | none =>
    simp only [exceptErrorBind] at hok
    exact absurd hok (by simp)
  | some pl =>
    dsimp only at hok
    obtain ⟨ap0, hap0, hok⟩ := exceptBind_ok_ex hok
    obtain ⟨cp0, hcp0, hok⟩ := exceptBind_ok_ex hok
    have hrec := Except.ok.inj hok
    subst hrec
    exact ⟨raw, hraw, ratingRecord_deaths _ _ _ _ _ _ _ _ _ _⟩

theorem calcFold_entries (data : List (String × CountryData)) (minPop : Option Int)
    (date : String) (acc out : List (String × List (String × RVal)))
    (h : data.foldlM (ratingStep minPop date) acc = Except.ok out) :
    ∀ c rec, dictGet out c = some rec →
      dictGet acc c = some rec ∨
      ∃ cd pop, (c, cd) ∈ data ∧ cd.population = some pop ∧
        countryRating pop (minPop.map fun _ => pop) cd.totals date =
          Except.ok rec := by
  induction data generalizing acc with
  | nil =>
    intro c rec hrec
    left
    have h' : Except.ok acc = Except.ok out := h
    have hae : acc = out := Except.ok.inj h'
    rw [hae]
    exact hrec
  | cons q data ih =>
    rw [List.foldlM_cons] at h
    intro c rec hrec
    cases hstep : ratingStep minPop date acc q with
    | error e =>
      rw [hstep] at h
      simp only [exceptErrorBind] at h
      exact absurd h (by simp)
    | ok acc1 =>
      rw [hstep] at h
      simp only [exceptOkBind] at h
      rcases ih acc1 h c rec hrec with hacc1 | hdata
      · cases hqpop : q.2.population with
        | none =>
          simp only [ratingStep, hqpop] at hstep
          have hae : acc = acc1 := Except.ok.inj hstep
          exact Or.inl (hae ▸ hacc1)
        | some pop =>
          cases minPop with
          | some mp =>
            by_cases hlt : pop < mp
            · simp only [ratingStep, hqpop, if_pos hlt] at hstep
              have hae : acc = acc1 := Except.ok.inj hstep
              exact Or.inl (hae ▸ hacc1)
            · simp only [ratingStep, hqpop, if_neg hlt] at hstep
              obtain ⟨r, hcr, hset⟩ := exceptBind_ok_ex hstep
              have hset' : dictSet acc q.1 r = acc1 := Except.ok.inj hset
              by_cases hcq : c = q.1
              · subst hcq
                rw [← hset', dictGet_dictSet_self] at hacc1
                have hre : r = rec := Option.some.inj hacc1
                subst hre
                refine Or.inr ⟨q.2, pop, ?_, hqpop, by simpa using hcr⟩
                rw [Prod.mk.eta]
                exact List.mem_cons_self q data
              · rw [← hset', dictGet_dictSet_ne acc q.1 c r hcq] at hacc1
                exact Or.inl hacc1
          | none =>
            simp only [ratingStep, hqpop] at hstep
            obtain ⟨r, hcr, hset⟩ := exceptBind_ok_ex hstep
            have hset' : dictSet acc q.1 r = acc1 := Except.ok.inj hset
            by_cases hcq : c = q.1
            · subst hcq
              rw [← hset', dictGet_dictSet_self] at hacc1
              have hre : r = rec := Option.some.inj hacc1
              subst hre
              refine Or.inr ⟨q.2, pop, ?_, hqpop, by simpa using hcr⟩
              rw [Prod.mk.eta]
              exact List.mem_cons_self q data
            · rw [← hset', dictGet_dictSet_ne acc q.1 c r hcq] at hacc1
              exact Or.inl hacc1
      · obtain ⟨cd, pop, hmem, hpop, hcr⟩ := hdata
        exact Or.inr ⟨cd, pop, List.mem_cons_of_mem q hmem, hpop, hcr⟩

/-- C10: in every per-country record produced by the calculator, the `deaths`
field holds the raw totals value at the target date (string-typed for a
collapsed single-territory country), not the integer-coerced count used for
the ratios: the dict literal assigns the `deaths` key twice and the later raw
assignment wins. -/
theorem c10_deaths_key_raw (data : List (String × CountryData)) (minPop : Option Int)
    (date : String) (out : List (String × List (String × RVal))) (c : String)
    (rec : List (String × RVal))
    (hok : calculate_ratings data minPop date = Except.ok out)
    (hrec : dictGet out c = some rec) :
    ∃ cd pop raw, (c, cd) ∈ data ∧ cd.population = some pop ∧
      getCases cd.totals key_deaths date = Except.ok raw ∧
      dictGet rec key_deaths = some (rvalOfPy raw) := by
  have hok' : data.foldlM (ratingStep minPop date) [] = Except.ok out := hok
  rcases calcFold_entries data minPop date [] out hok' c rec hrec with h | h
  · simp at h
  · obtain ⟨cd, pop, hmem, hpop, hcr⟩ := h
    obtain ⟨raw, hraw, hdfield⟩ := countryRating_deaths_raw pop _ cd.totals date rec hcr
    exact ⟨cd, pop, raw, hmem, hpop, hraw, hdfield⟩

/-- Witness for C10: the produced record's `deaths` field is the raw string
cell `"1"`, not the coerced integer. -/
theorem c10_witness :
    ∃ cd pop raw, ("X", cd) ∈ [("X", cdTen)] ∧ cd.population = some pop ∧
      getCases cd.totals key_deaths "D" = Except.ok raw ∧
      dictGet recW10 key_deaths = some (rvalOfPy raw) :=
  c10_deaths_key_raw [("X", cdTen)] (some 50) "D" [("X", recW10)] "X" recW10
    (by rfl) (by rfl)

theorem valOf_eq_itemKey (ratings : List (String × List (String × RVal)))
    (k : String) (hnd : (ratings.map Prod.fst).Nodup)
    {x : String × List (String × RVal)} (hx : x ∈ ratings) :
    valOf ratings k x.1 = itemKey k x := by
  unfold valOf
  have hget : dictGet ratings x.1 = some x.2 :=
    dictGet_of_mem_nodup (by rw [Prod.mk.eta]; exact hx) hnd
  rw [hget]
  simp only [Option.getD_some]

/-- With distinct keys, the dict rebuilt on line 401 is the sorted item list,
so a ranking is: sorted keys, last twenty, reversed. -/
theorem rankBy_eq (ratings : List (String × List (String × RVal))) (k : String)
    (hnd : (ratings.map Prod.fst).Nodup) :
    rankBy ratings k =
      (((ratings.insertionSort (rankLE k)).map Prod.fst).drop
        (ratings.length - 20)).reverse := by
  unfold rankBy
  dsimp only
  have hperm := List.perm_insertionSort (rankLE k) ratings
  have hndk : ((ratings.insertionSort (rankLE k)).map Prod.fst).Nodup :=
    ((hperm.map Prod.fst).nodup_iff).mpr hnd
  rw [foldl_dictSet_eq _ [] hndk (by simp)]
  simp only [List.nil_append, List.length_insertionSort]

/-- Inside a list without duplicates, a pair that is a sublist and whose first
element lies in a suffix is a sublist of that suffix. -/
theorem pair_sublist_drop {l : List String} {x y : String} (m : Nat)
    (hnd : l.Nodup) (hxy : List.Sublist [x, y] l) (hx : x ∈ l.drop m) :
    List.Sublist [x, y] (l.drop m) := by
  have hnd' : (l.take m ++ l.drop m).Nodup := by
    rw [List.take_append_drop]
    exact hnd
  have hdisj := List.disjoint_of_nodup_append hnd'
  have hxt : x ∉ l.take m := fun hxt => hdisj hxt hx
  rw [← List.take_append_drop m l] at hxy
  rcases List.sublist_append_iff.mp hxy with ⟨r₁, r₂, heq, h₁, h₂⟩
  cases r₁ with
  | nil =>
    simp only [List.nil_append] at heq
    rw [heq]
    exact h₂
  | cons a t =>
    exfalso
    injection heq with h1 h2
    apply hxt
    rw [h1]
    exact h₁.subset (List.mem_cons_self a t)

/-- C5 (amended): for each of the five ranked metrics, the ranking from any
ratings map (distinct country keys, as a Python dict guarantees) has length
exactly `min 20 (number of countries)` and is ordered descending by the
metric's value; tied entries do not keep the relative order the stable
ascending sort gives them — the final reversal flips it, so a tied pair
appears in reverse input iteration order. -/
theorem c5_ranking (ratings : List (String × List (String × RVal))) (k : String)
    (_hk : k ∈ rating_keys)
    (hnd : (ratings.map Prod.fst).Nodup) :
    (rankBy ratings k).length = min 20 ratings.length ∧
    (rankBy ratings k).Pairwise
      (fun a b => valOf ratings k b ≤ valOf ratings k a) ∧
    (∀ x y : String × List (String × RVal), List.Sublist [x, y] ratings →
      itemKey k x = itemKey k y →
      x.1 ∈ rankBy ratings k →
      List.Sublist [y.1, x.1] (rankBy ratings k)) := by
  have hperm := List.perm_insertionSort (rankLE k) ratings
  have hndk : ((ratings.insertionSort (rankLE k)).map Prod.fst).Nodup :=
    ((hperm.map Prod.fst).nodup_iff).mpr hnd
  have heq := rankBy_eq ratings k hnd
  refine ⟨?_, ?_, ?_⟩
  · rw [heq]
    simp only [List.length_reverse, List.length_drop, List.length_map,
      List.length_insertionSort]
    omega
  · rw [heq]
    rw [List.pairwise_reverse]
    rw [← List.map_drop]
    rw [List.pairwise_map]
    have hpw : ((ratings.insertionSort (rankLE k)).drop
        (ratings.length - 20)).Pairwise (rankLE k) :=
      List.Pairwise.sublist (List.drop_sublist _ _)
        (List.sorted_insertionSort (rankLE k) ratings)
    apply List.Pairwise.imp_of_mem ?_ hpw
    intro a b ha hb hab
    have hma : a ∈ ratings :=
      hperm.subset (List.drop_subset _ _ ha)
    have hmb : b ∈ ratings :=
      hperm.subset (List.drop_subset _ _ hb)
    rw [valOf_eq_itemKey ratings k hnd hma, valOf_eq_itemKey ratings k hnd hmb]
    exact hab
  · intro x y hxy htie hx1
    have hle : rankLE k x y := le_of_eq htie
    have hpair : List.Sublist [x, y] (ratings.insertionSort (rankLE k)) :=
      List.pair_sublist_insertionSort hle hxy
    have hpairK : List.Sublist [x.1, y.1]
        ((ratings.insertionSort (rankLE k)).map Prod.fst) :=
      List.Sublist.map Prod.fst hpair
    rw [heq] at hx1 ⊢
    rw [List.mem_reverse] at hx1
    exact List.Sublist.reverse (pair_sublist_drop _ hndk hpairK hx1)

/-- Witness for C5 on `ratingsW5` and the mortality metric. -/
theorem c5_witness :
    (rankBy ratingsW5 key_mortality).length = min 20 ratingsW5.length ∧
    (rankBy ratingsW5 key_mortality).Pairwise
      (fun a b => valOf ratingsW5 key_mortality b ≤ valOf ratingsW5 key_mortality a) ∧
    (∀ x y : String × List (String × RVal), List.Sublist [x, y] ratingsW5 →
      itemKey key_mortality x = itemKey key_mortality y →
      x.1 ∈ rankBy ratingsW5 key_mortality →
      List.Sublist [y.1, x.1] (rankBy ratingsW5 key_mortality)) :=
  c5_ranking ratingsW5 key_mortality (by decide) (by decide)

/-- C6 counterexample: ranking the map `{A: 1, B: 1}` (tied values) yields
`[B, A]`; re-applying the ranking operation to that already-ranked sequence
(the sub-map in ranking order, `{B: 1, A: 1}`) yields `[A, B]`, not the same
sequence — the stable ascending sort keeps the tie in the new input order and
the final reversal flips it again. -/
theorem c6_counterexample :
    rankBy [("A", recT6), ("B", recT6)] key_mortality = ["B", "A"] ∧
    rankBy [("B", recT6), ("A", recT6)] key_mortality = ["A", "B"] ∧
    (["A", "B"] : List String) ≠ (["B", "A"] : List String) := by
  refine ⟨by rfl, by rfl, by decide⟩

/-- C6 (amended): re-applying the ranking operation to the already-ranked
top-20 sub-map (taken in ranking order from the original ratings) returns the
identical sequence provided the ranked entries' metric values are pairwise
distinct; with tied values idempotence fails, the tied entries coming back in
reversed relative order. -/
theorem c6_rerank_distinct (ratings : List (String × List (String × RVal))) (k : String)
    (hnd : (ratings.map Prod.fst).Nodup)
    (hdist : ((rankBy ratings k).map (valOf ratings k)).Nodup) :
    rankBy ((rankBy ratings k).map (fun c => (c, (dictGet ratings c).getD []))) k =
      rankBy ratings k := by
  have hperm := List.perm_insertionSort (rankLE k) ratings
  have hndk : ((ratings.insertionSort (rankLE k)).map Prod.fst).Nodup :=
    ((hperm.map Prod.fst).nodup_iff).mpr hnd
  have heq := rankBy_eq ratings k hnd
  have heq2 : rankBy ratings k =
      (((ratings.insertionSort (rankLE k)).drop
        (ratings.length - 20)).map Prod.fst).reverse := by
    rw [heq, List.map_drop]
  have hmemRat : ∀ x ∈ (ratings.insertionSort (rankLE k)).drop
      (ratings.length - 20), x ∈ ratings := fun x hx =>
    hperm.subset (List.drop_subset _ _ hx)
  have hgetid : ∀ x ∈ (ratings.insertionSort (rankLE k)).drop
      (ratings.length - 20), ((x.1, (dictGet ratings x.1).getD []) :
      String × List (String × RVal)) = x := by
    intro x hx
    have hget : dictGet ratings x.1 = some x.2 :=
      dictGet_of_mem_nodup (by rw [Prod.mk.eta]; exact hmemRat x hx) hnd
    rw [hget]
    simp only [Option.getD_some]
  have hsub : (rankBy ratings k).map (fun c => (c, (dictGet ratings c).getD [])) =
      ((ratings.insertionSort (rankLE k)).drop (ratings.length - 20)).reverse := by
    rw [heq2, List.map_reverse, List.map_map]
    congr 1
    have hcg : ∀ x ∈ (ratings.insertionSort (rankLE k)).drop
        (ratings.length - 20),
        ((fun c => (c, (dictGet ratings c).getD [])) ∘ Prod.fst) x = id x := by
      intro x hx
      simp only [Function.comp, id]
      exact hgetid x hx
    rw [List.map_congr_left hcg, List.map_id]
  have hvalsuffix : ((ratings.insertionSort (rankLE k)).drop
      (ratings.length - 20)).Pairwise (fun a b => itemKey k a ≠ itemKey k b) := by
    have h1 : ((rankBy ratings k).map (valOf ratings k)) =
        (((ratings.insertionSort (rankLE k)).drop
          (ratings.length - 20)).map (itemKey k)).reverse := by
      rw [heq2, List.map_reverse, List.map_map]
      congr 1
      apply List.map_congr_left
      intro x hx
      simp only [Function.comp]
      exact valOf_eq_itemKey ratings k hnd (hmemRat x hx)
    rw [h1, List.nodup_reverse] at hdist
    exact List.pairwise_map.mp hdist
  have hpwsuffix : ((ratings.insertionSort (rankLE k)).drop
      (ratings.length - 20)).Pairwise (rankLE k) :=
    List.Pairwise.sublist (List.drop_sublist _ _)
      (List.sorted_insertionSort (rankLE k) ratings)
  have hstrictsuffix : ((ratings.insertionSort (rankLE k)).drop
      (ratings.length - 20)).Pairwise (rankStrictEq k) :=
    (hpwsuffix.and hvalsuffix).imp
      (fun hab => Or.inl (lt_of_le_of_ne hab.1 hab.2))
  have hndsub : ((((rankBy ratings k).map
      (fun c => (c, (dictGet ratings c).getD []))).map Prod.fst)).Nodup := by
    rw [hsub, List.map_reverse, List.nodup_reverse]
    exact List.Nodup.sublist (List.Sublist.map Prod.fst (List.drop_sublist _ _)) hndk
  have hperm2 : List.Perm (((rankBy ratings k).map
      (fun c => (c, (dictGet ratings c).getD []))).insertionSort (rankLE k))
      ((ratings.insertionSort (rankLE k)).drop (ratings.length - 20)) := by
    refine (List.perm_insertionSort _ _).trans ?_
    rw [hsub]
    exact List.reverse_perm _
  have hsorted1 : List.Sorted (rankStrictEq k)
      (((rankBy ratings k).map
        (fun c => (c, (dictGet ratings c).getD []))).insertionSort (rankLE k)) := by
    have hpw1 := List.sorted_insertionSort (rankLE k)
      ((rankBy ratings k).map (fun c => (c, (dictGet ratings c).getD [])))
    have hvals1 : (((rankBy ratings k).map
        (fun c => (c, (dictGet ratings c).getD []))).insertionSort
          (rankLE k)).Pairwise (fun a b => itemKey k a ≠ itemKey k b) :=
      (List.Perm.pairwise_iff (fun h => h.symm) hperm2).mpr hvalsuffix
    exact (hpw1.and hvals1).imp (fun hab => Or.inl (lt_of_le_of_ne hab.1 hab.2))
  have hresort : (((rankBy ratings k).map
      (fun c => (c, (dictGet ratings c).getD []))).insertionSort (rankLE k)) =
      ((ratings.insertionSort (rankLE k)).drop (ratings.length - 20)) :=
    List.eq_of_perm_of_sorted hperm2 hsorted1 hstrictsuffix
  rw [rankBy_eq _ k hndsub, hresort]
  have hlen : ((rankBy ratings k).map
      (fun c => (c, (dictGet ratings c).getD []))).length - 20 = 0 := by
    rw [hsub]
    simp only [List.length_reverse, List.length_drop, List.length_insertionSort]
    omega
  rw [hlen, List.drop_zero, heq2]

/-- Witness for C6 (amended) on the distinct-valued three-country map. -/
theorem c6_witness :
    rankBy ((rankBy ratingsW5 key_mortality).map
      (fun c => (c, (dictGet ratingsW5 c).getD []))) key_mortality =
      rankBy ratingsW5 key_mortality :=
  c6_rerank_distinct ratingsW5 key_mortality (by decide) (by decide)

/-- C5 counterexample: with the tied map `{A: 1, B: 1}` the ranking is
`[B, A]`, while the stable ascending sort keeps the tied pair in input order
`A` before `B` — the ranking does not keep that relative order. -/
theorem c5_counterexample :
    rankBy [("A", recT6), ("B", recT6)] key_mortality = ["B", "A"] ∧
    itemKey key_mortality ("A", recT6) = itemKey key_mortality ("B", recT6) ∧
    (["B", "A"] : List String) ≠ ["A", "B"] := by
  refine ⟨by rfl, by rfl, by decide⟩
